import Mathlib

/-!
Shallow embedding of the CSV statistics pipeline in `Homework 1/main.cpp`.

Strings (`std::string`) are modelled as `List Char`; `double` is modelled as
`ℚ` (exact arithmetic); `std::sqrt` and `std::stod` are external library
functions on doubles, so they are passed in as parameters (`sqrt : ℚ → ℚ`,
`parse : List Char → Option ℚ`, where `none` models a `std::stod` failure of
either kind, `invalid_argument` or `out_of_range`).  The file system is a map
from file names to `Option` file contents (a list of text lines); `none`
models a file that cannot be opened.  `int` is modelled as unbounded `Int`;
the one place the code converts an `int` to `size_t`
(`size_t param_count = lines_to_read;`) is modelled by reduction mod `2^64`.
-/

set_option autoImplicit false

abbrev Str := List Char

/-- Inner cell loop of `readCSV`: repeated `std::getline(sstream, cell, ',')`
with accumulator `acc` holding the (reversed) characters of the current cell.
`std::getline` fails (ending the loop) only when the stream is already at EOF,
so a trailing comma does not produce a trailing empty cell. -/
def splitCellsGo : List Char → List Char → List Str
  | [], acc => [acc.reverse]
  | c :: rest, acc =>
    if c = ',' then
      match rest with
      | [] => [acc.reverse]
      | _ :: _ => acc.reverse :: splitCellsGo rest []
    else splitCellsGo rest (c :: acc)

/-- Splitting of one CSV line into cells, as `readCSV` does with
`std::getline` on `','`.  An empty line yields an empty row. -/
def splitCells : Str → List Str
  | [] => []
  | c :: rest => splitCellsGo (c :: rest) []

/-- The function `readCSV`: if the file cannot be opened (`none`) return the
empty table; otherwise split every line on commas. -/
def readCSV (file : Option (List Str)) : List (List Str) :=
  match file with
  | none => []
  | some lines => lines.map splitCells

/-- The call `std::accumulate(data.begin(), data.end(), init)`. -/
def accumulate (data : List ℚ) (init : ℚ) : ℚ :=
  data.foldl (fun a b => a + b) init

/-- The call `std::inner_product(a.begin(), a.end(), b.begin(), init)`. -/
def inner_product (a b : List ℚ) (init : ℚ) : ℚ :=
  (a.zip b).foldl (fun acc p => acc + p.1 * p.2) init

/-- The function `computeMeanAndStdDev`, with `std::sqrt` as parameter. -/
def computeMeanAndStdDev (sqrt : ℚ → ℚ) (data : List ℚ) : ℚ × ℚ :=
  if data.isEmpty then (0, 0)
  else
    let mean := accumulate data 0 / (data.length : ℚ)
    let sq_sum := inner_product data data 0
    let stddev := sqrt (sq_sum / (data.length : ℚ) - mean * mean)
    (mean, stddev)

/-- The function `normalizeColumn`.  `std::minmax_element` over a non-empty
vector `x :: xs` is the fold of `min` (resp. `max`) over the tail starting
from the head.  The in-place update loops become `List.map`. -/
def normalizeColumn (column : List ℚ) : List ℚ :=
  match column with
  | [] => []
  | x :: xs =>
    let minVal := xs.foldl min x
    let maxVal := xs.foldl max x
    if maxVal = minVal then (x :: xs).map (fun _ => (0 : ℚ))
    else (x :: xs).map (fun v => (v - minVal) / (maxVal - minVal))

/-- Boolean test that `needle` occurs at the very start of `hay`
(helper for `std::string::find`). -/
def isPrefixList : List Char → List Char → Bool
  | [], _ => true
  | _ :: _, [] => false
  | a :: as, b :: bs => a = b && isPrefixList as bs

/-- The test `hay.find(needle) != std::string::npos`: `needle` occurs as a
contiguous substring of `hay` at some position. -/
def findSub (needle : List Char) : List Char → Bool
  | [] => isPrefixList needle []
  | c :: rest => isPrefixList needle (c :: rest) || findSub needle rest

/-- The column-filtering loop of `main`: a configured column name is kept
unless some non-empty `do_not_include` term occurs in it as a substring. -/
def filterColumns (original_column_names : List Str) (do_not_include_terms : List Str) : List Str :=
  original_column_names.filter
    (fun col_name =>
      !(do_not_include_terms.any (fun term => !term.isEmpty && findSub term col_name)))

/-- One `header_index[key] = i` assignment on the model of the
`std::unordered_map`: insert or overwrite. -/
def insertEntry (m : Str → Option Nat) (key : Str) (i : Nat) : Str → Option Nat :=
  fun k => if k = key then some i else m k

/-- The loop `for (i = 0; i < csv_header.size(); ++i) header_index[csv_header[i]] = i;`
running over the remaining header suffix, with `i` the index of its first
element and `m` the map built so far. -/
def buildHeaderMap : List Str → Nat → (Str → Option Nat) → (Str → Option Nat)
  | [], _, m => m
  | h :: t, i, m => buildHeaderMap t (i + 1) (insertEntry m h i)

/-- The finished `header_index` map of `main`, built from the header row. -/
def headerIndexMap (header : List Str) : Str → Option Nat :=
  buildHeaderMap header 0 (fun _ => none)

/-- The truncation step of `main`:
`if (lines_to_read > 0 && csv_data.size() > (size_t)lines_to_read) csv_data.resize(lines_to_read);`
(applied after the header row has been removed). -/
def enforceLineLimit {α : Type} (lines_to_read : Int) (rows : List α) : List α :=
  if 0 < lines_to_read ∧ lines_to_read.toNat < rows.length then
    rows.take lines_to_read.toNat
  else rows

/-- Outcome of processing one (row, configured column) pair in the coercion
loop of `main`: a successfully parsed value, the column-not-found diagnostic
(name unresolved in the header map, or resolved index beyond the field
count of the row), or a `std::stod` failure diagnostic. -/
inductive CellOutcome where
  | value (v : ℚ)
  | notFound
  | badParse
deriving DecidableEq

/-- Body of the coercion loop of `main` for one row and one configured column:
the cell is read only when the name resolves and the index is in bounds for
this row. -/
def coerceCell (parse : Str → Option ℚ) (header_index : Str → Option Nat)
    (row : List Str) (col_name : Str) : CellOutcome :=
  match header_index col_name with
  | some idx =>
    if h : idx < row.length then
      match parse (row.get ⟨idx, h⟩) with
      | some v => CellOutcome.value v
      | none => CellOutcome.badParse
    else CellOutcome.notFound
  | none => CellOutcome.notFound

/-- The series `numerical_data[i]` built by the coercion loop for configured
column `col_name`: the successfully parsed cells, in row order; skipped cells
contribute nothing. -/
def buildColumnSeries (parse : Str → Option ℚ) (header_index : Str → Option Nat)
    (rows : List (List Str)) (col_name : Str) : List ℚ :=
  rows.filterMap (fun row =>
    match coerceCell parse header_index row col_name with
    | CellOutcome.value v => some v
    | CellOutcome.notFound => none
    | CellOutcome.badParse => none)

/-- One dataset entry of the JSON configuration, after ConfigLoader defaults
(`do_not_include = []`, `normalize = false` when absent). -/
structure DatasetSpec where
  file_name : Str
  lines_to_read : Int
  columns : List Str
  do_not_include : List Str
  normalize : Bool
deriving DecidableEq

/-- One data row of the `_summary.csv` file:
`column_name,mean,stddev,param_count`. -/
structure SummaryRow where
  column_name : Str
  mean : ℚ
  stddev : ℚ
  param_count : Nat
deriving DecidableEq

/-- The per-dataset body of the loop in `main`, starting from the parsed CSV
table: `none` when the table is empty (dataset skipped); otherwise the summary
rows that are written to the `_summary.csv` file, and `some` transformed
column data when `normalize` is set (the contents of the `_transformed.csv`
file), `none` otherwise.  `param_count` is
`size_t param_count = lines_to_read;`, an `int` to `size_t` conversion, hence
reduction mod `2^64`.  Normalization runs strictly after the summary has been
assembled, and only on non-empty columns. -/
def processDataset (sqrt : ℚ → ℚ) (parse : Str → Option ℚ) (spec : DatasetSpec)
    (csv_data : List (List Str)) : Option (List SummaryRow × Option (List (List ℚ))) :=
  match csv_data with
  | [] => none
  | csv_header :: body =>
    let column_names := filterColumns spec.columns spec.do_not_include
    let header_index := headerIndexMap csv_header
    let rows := enforceLineLimit spec.lines_to_read body
    let numerical_data := column_names.map (buildColumnSeries parse header_index rows)
    let param_count := (spec.lines_to_read % ((2 : Int) ^ 64)).toNat
    let summary := (column_names.zip numerical_data).filterMap
      (fun p =>
        if p.2.isEmpty then none
        else
          let ms := computeMeanAndStdDev sqrt p.2
          some { column_name := p.1, mean := ms.1, stddev := ms.2,
                 param_count := param_count })
    let transformed :=
      if spec.normalize then
        some (numerical_data.map (fun col => if col.isEmpty then col else normalizeColumn col))
      else none
    some (summary, transformed)

/-- The batch loop of `main` over all dataset entries, with the file system
abstracted as `fs`.  Each produced output is tagged with the file name of
the dataset (the output file names are derived from it); a skipped dataset
contributes nothing and the loop continues. -/
def processBatch (sqrt : ℚ → ℚ) (parse : Str → Option ℚ) (fs : Str → Option (List Str))
    (specs : List DatasetSpec) : List (Str × (List SummaryRow × Option (List (List ℚ)))) :=
  specs.filterMap (fun spec =>
    (processDataset sqrt parse spec (readCSV (fs spec.file_name))).map
      (fun out => (spec.file_name, out)))

/-! ### Basic fold lemmas -/

theorem accumulate_eq_sum (l : List ℚ) : ∀ init : ℚ, accumulate l init = init + l.sum := by
  induction l with
  | nil => intro init; simp [accumulate]
  | cons a t ih =>
    intro init
    have h : accumulate (a :: t) init = accumulate t (init + a) := rfl
    rw [h, ih]
    simp [List.sum_cons]
    ring

theorem inner_product_self_eq_sum_sq (l : List ℚ) :
    ∀ init : ℚ, inner_product l l init = init + (l.map (fun x => x * x)).sum := by
  induction l with
  | nil => intro init; simp [inner_product]
  | cons a t ih =>
    intro init
    have h : inner_product (a :: t) (a :: t) init = inner_product t t (init + a * a) := rfl
    rw [h, ih]
    simp [List.sum_cons]
    ring

theorem foldl_min_mem (x : ℚ) (xs : List ℚ) : xs.foldl min x ∈ x :: xs := by
  induction xs generalizing x with
  | nil => simp
  | cons a t ih =>
    have h : (a :: t).foldl min x = t.foldl min (min x a) := rfl
    rw [h]
    have := ih (min x a)
    rcases List.mem_cons.mp this with h1 | h1
    · rcases min_choice x a with h2 | h2
      · exact List.mem_cons.mpr (Or.inl (h1.trans h2))
      · exact List.mem_cons.mpr (Or.inr (List.mem_cons.mpr (Or.inl (h1.trans h2))))
    · exact List.mem_cons.mpr (Or.inr (List.mem_cons.mpr (Or.inr h1)))

theorem foldl_min_le (x : ℚ) (xs : List ℚ) : ∀ y ∈ x :: xs, xs.foldl min x ≤ y := by
  induction xs generalizing x with
  | nil => intro y hy; simp at hy; simp [hy]
  | cons a t ih =>
    intro y hy
    have h : (a :: t).foldl min x = t.foldl min (min x a) := rfl
    rw [h]
    have hmx : t.foldl min (min x a) ≤ min x a := ih (min x a) (min x a) (List.mem_cons_self _ _)
    rcases List.mem_cons.mp hy with h1 | h1
    · subst h1; exact le_trans hmx (min_le_left _ _)
    · rcases List.mem_cons.mp h1 with h2 | h2
      · subst h2; exact le_trans hmx (min_le_right _ _)
      · exact ih (min x a) y (List.mem_cons_of_mem _ h2)

theorem foldl_max_mem (x : ℚ) (xs : List ℚ) : xs.foldl max x ∈ x :: xs := by
  induction xs generalizing x with
  | nil => simp
  | cons a t ih =>
    have h : (a :: t).foldl max x = t.foldl max (max x a) := rfl
    rw [h]
    have := ih (max x a)
    rcases List.mem_cons.mp this with h1 | h1
    · rcases max_choice x a with h2 | h2
      · exact List.mem_cons.mpr (Or.inl (h1.trans h2))
      · exact List.mem_cons.mpr (Or.inr (List.mem_cons.mpr (Or.inl (h1.trans h2))))
    · exact List.mem_cons.mpr (Or.inr (List.mem_cons.mpr (Or.inr h1)))

theorem le_foldl_max (x : ℚ) (xs : List ℚ) : ∀ y ∈ x :: xs, y ≤ xs.foldl max x := by
  induction xs generalizing x with
  | nil => intro y hy; simp at hy; simp [hy]
  | cons a t ih =>
    intro y hy
    have h : (a :: t).foldl max x = t.foldl max (max x a) := rfl
    rw [h]
    have hmx : max x a ≤ t.foldl max (max x a) := ih (max x a) (max x a) (List.mem_cons_self _ _)
    rcases List.mem_cons.mp hy with h1 | h1
    · subst h1; exact le_trans (le_max_left _ _) hmx
    · rcases List.mem_cons.mp h1 with h2 | h2
      · subst h2; exact le_trans (le_max_right _ _) hmx
      · exact ih (max x a) y (List.mem_cons_of_mem _ h2)

/-- Characterization of `normalizeColumn` by the mathematical minimum and
maximum of the series, rather than by the folds the code uses. -/
theorem normalizeColumn_eq_of_minmax (column : List ℚ) (m M : ℚ)
    (hm : m ∈ column) (hm2 : ∀ y ∈ column, m ≤ y)
    (hM : M ∈ column) (hM2 : ∀ y ∈ column, y ≤ M) :
    normalizeColumn column =
      if M = m then column.map (fun _ => (0 : ℚ))
      else column.map (fun x => (x - m) / (M - m)) := by
  cases column with
  | nil => simp at hm
  | cons x xs =>
    have hmin : xs.foldl min x = m :=
      le_antisymm (foldl_min_le x xs m hm) (hm2 _ (foldl_min_mem x xs))
    have hmax : xs.foldl max x = M :=
      le_antisymm (hM2 _ (foldl_max_mem x xs)) (le_foldl_max x xs M hM)
    rw [normalizeColumn]
    rw [hmin, hmax]

/-! ### Claims C2, C3, C8 -/

/-- C2: `computeMeanAndStdDev` returns `(0, 0)` on the empty series, and
otherwise returns mean `(Σ x_i)/n` and stddev `sqrt((Σ x_i²)/n − mean²)`, the
population formula computed from the sum of squares and the mean. -/
theorem C2_computeMeanAndStdDev_population_formula (sqrt : ℚ → ℚ) (data : List ℚ) :
    computeMeanAndStdDev sqrt data =
      if data = [] then (0, 0)
      else (data.sum / (data.length : ℚ),
            sqrt ((data.map fun x => x * x).sum / (data.length : ℚ)
              - data.sum / (data.length : ℚ) * (data.sum / (data.length : ℚ)))) := by
  cases data with
  | nil => rfl
  | cons a t =>
    simp [computeMeanAndStdDev, accumulate_eq_sum, inner_product_self_eq_sum_sq]

/-- C3: on a non-empty series with minimum `m` and maximum `M`,
`normalizeColumn` maps every element to `0` when `M = m`, and otherwise maps
every element `x` to `(x − m) / (M − m)`. -/
theorem C3_normalizeColumn_minmax_rescale (column : List ℚ) (m M : ℚ)
    (hm : m ∈ column) (hm2 : ∀ y ∈ column, m ≤ y)
    (hM : M ∈ column) (hM2 : ∀ y ∈ column, y ≤ M) :
    normalizeColumn column =
      if M = m then column.map (fun _ => (0 : ℚ))
      else column.map (fun x => (x - m) / (M - m)) :=
  normalizeColumn_eq_of_minmax column m M hm hm2 hM hM2

theorem C3_witness : normalizeColumn [1, 3] = [0, 1] := by
  have h := C3_normalizeColumn_minmax_rescale [1, 3] 1 3
    (by simp) (by simp) (by simp) (by simp)
  rw [h, if_neg (by norm_num)]
  norm_num

/-- C8: normalization is idempotent on a series whose minimum `m` and
maximum `M` differ: applying `normalizeColumn` twice gives the same series as
applying it once. -/
theorem C8_normalizeColumn_idempotent (column : List ℚ) (m M : ℚ)
    (hm : m ∈ column) (hm2 : ∀ y ∈ column, m ≤ y)
    (hM : M ∈ column) (hM2 : ∀ y ∈ column, y ≤ M)
    (hne : M ≠ m) :
    normalizeColumn (normalizeColumn column) = normalizeColumn column := by
  rw [normalizeColumn_eq_of_minmax column m M hm hm2 hM hM2, if_neg hne]
  have hlt : m < M := (hm2 M hM).lt_of_ne (Ne.symm hne)
  have hMm : (0 : ℚ) < M - m := sub_pos.mpr hlt
  have h0mem : (0 : ℚ) ∈ column.map (fun x => (x - m) / (M - m)) :=
    List.mem_map.mpr ⟨m, hm, by simp⟩
  have h1mem : (1 : ℚ) ∈ column.map (fun x => (x - m) / (M - m)) :=
    List.mem_map.mpr ⟨M, hM, div_self (ne_of_gt hMm)⟩
  have h0le : ∀ y ∈ column.map (fun x => (x - m) / (M - m)), (0 : ℚ) ≤ y := by
    intro y hy
    rcases List.mem_map.mp hy with ⟨z, hz, rfl⟩
    exact div_nonneg (sub_nonneg.mpr (hm2 z hz)) (le_of_lt hMm)
  have hle1 : ∀ y ∈ column.map (fun x => (x - m) / (M - m)), y ≤ (1 : ℚ) := by
    intro y hy
    rcases List.mem_map.mp hy with ⟨z, hz, rfl⟩
    rw [div_le_one hMm]
    exact sub_le_sub_right (hM2 z hz) m
  rw [normalizeColumn_eq_of_minmax (column.map (fun x => (x - m) / (M - m))) 0 1
    h0mem h0le h1mem hle1, if_neg one_ne_zero]
  simp

theorem C8_witness :
    normalizeColumn (normalizeColumn [1, 3]) = normalizeColumn [1, 3] :=
  C8_normalizeColumn_idempotent [1, 3] 1 3
    (by simp) (by simp) (by simp) (by simp) (by norm_num)

/-! ### Substring search and column filtering (C6), line limit (C7) -/

theorem isPrefixList_iff (needle : List Char) :
    ∀ hay : List Char, isPrefixList needle hay = true ↔ ∃ r, hay = needle ++ r := by
  induction needle with
  | nil => intro hay; simp [isPrefixList]
  | cons a as ih =>
    intro hay
    cases hay with
    | nil => simp [isPrefixList]
    | cons b bs =>
      rw [isPrefixList]
      simp only [Bool.and_eq_true, decide_eq_true_eq, ih bs]
      constructor
      · rintro ⟨rfl, r, rfl⟩
        exact ⟨r, rfl⟩
      · rintro ⟨r, hr⟩
        rw [List.cons_append] at hr
        injection hr with h1 h2
        exact ⟨h1.symm, r, h2⟩

theorem findSub_iff (needle : List Char) :
    ∀ hay : List Char, findSub needle hay = true ↔ ∃ l r, hay = l ++ needle ++ r := by
  intro hay
  induction hay with
  | nil =>
    rw [findSub, isPrefixList_iff]
    constructor
    · rintro ⟨r, hr⟩
      exact ⟨[], r, hr⟩
    · rintro ⟨l, r, hr⟩
      rcases List.append_eq_nil.mp hr.symm with ⟨hln, hrn⟩
      rcases List.append_eq_nil.mp hln with ⟨hl, hn⟩
      exact ⟨[], by simp [hn]⟩
  | cons c rest ih =>
    rw [findSub]
    simp only [Bool.or_eq_true, isPrefixList_iff, ih]
    constructor
    · rintro (⟨r, hr⟩ | ⟨l, r, hr⟩)
      · exact ⟨[], r, by simpa using hr⟩
      · exact ⟨c :: l, r, by simp [hr]⟩
    · rintro ⟨l, r, hr⟩
      cases l with
      | nil => exact Or.inl ⟨r, by simpa using hr⟩
      | cons hd tl =>
        rw [List.cons_append, List.cons_append] at hr
        injection hr with h1 h2
        exact Or.inr ⟨tl, r, h2⟩

/-- The predicate `needle occurs as a contiguous substring of hay`
(which the code tests via `hay.find(needle) != std::string::npos`). -/
def SubOf (needle hay : List Char) : Prop := ∃ l r, hay = l ++ needle ++ r

instance (needle hay : List Char) : Decidable (SubOf needle hay) :=
  decidable_of_iff (findSub needle hay = true) (findSub_iff needle hay)

/-- C6: the filtered column list is exactly the configured list restricted to
those names that contain no non-empty exclusion term as a substring, in their
original relative order (an empty term never excludes anything). -/
theorem C6_filterColumns_exclusion (cols terms : List Str) :
    filterColumns cols terms =
      cols.filter (fun c => decide (¬ ∃ t ∈ terms, t ≠ [] ∧ SubOf t c)) := by
  rw [filterColumns]
  apply List.filter_congr
  intro c _
  by_cases hP : ∃ t ∈ terms, t ≠ [] ∧ SubOf t c
  · have hany : terms.any (fun term => !term.isEmpty && findSub term c) = true := by
      rw [List.any_eq_true]
      rcases hP with ⟨t, ht, htne, hsub⟩
      refine ⟨t, ht, ?_⟩
      rw [Bool.and_eq_true]
      exact ⟨by simpa [List.isEmpty_iff] using htne, (findSub_iff t c).mpr hsub⟩
    rw [hany, decide_eq_false (not_not_intro hP)]
    rfl
  · have hany : terms.any (fun term => !term.isEmpty && findSub term c) = false := by
      rw [List.any_eq_false]
      intro t ht hcontra
      rw [Bool.and_eq_true] at hcontra
      apply hP
      refine ⟨t, ht, ?_, (findSub_iff t c).mp hcontra.2⟩
      intro hnil
      rw [hnil] at hcontra
      simp [List.isEmpty] at hcontra
    rw [hany, decide_eq_true hP]
    rfl

/-- C7: when `lines_to_read` is positive, `enforceLineLimit` keeps exactly the
first `lines_to_read` rows (at most), so the coercion that runs on its output
sees at most `lines_to_read` rows; when `lines_to_read` is zero or negative,
no rows are discarded. -/
theorem C7_enforceLineLimit_truncation (L : Int) (rows : List (List Str))
    (parse : Str → Option ℚ) (header_index : Str → Option Nat) (col : Str) :
    (0 < L → enforceLineLimit L rows = rows.take L.toNat ∧
      (enforceLineLimit L rows).length ≤ L.toNat ∧
      (buildColumnSeries parse header_index (enforceLineLimit L rows) col).length ≤ L.toNat) ∧
    (L ≤ 0 → enforceLineLimit L rows = rows) := by
  constructor
  · intro hL
    have heq : enforceLineLimit L rows = rows.take L.toNat := by
      rw [enforceLineLimit]
      rcases lt_or_ge L.toNat rows.length with h | h
      · rw [if_pos ⟨hL, h⟩]
      · rw [if_neg (by rintro ⟨_, h2⟩; omega)]
        exact (List.take_of_length_le h).symm
    refine ⟨heq, ?_, ?_⟩
    · rw [heq, List.length_take]
      exact min_le_left _ _
    · calc (buildColumnSeries parse header_index (enforceLineLimit L rows) col).length
          ≤ (enforceLineLimit L rows).length := List.length_filterMap_le _ _
        _ ≤ L.toNat := by rw [heq, List.length_take]; exact min_le_left _ _
  · intro hL
    rw [enforceLineLimit, if_neg (by rintro ⟨h1, _⟩; omega)]

theorem C7_witness :
    enforceLineLimit 1 ([[], []] : List (List Str)) = [[]] ∧
    enforceLineLimit (-1) ([[], []] : List (List Str)) = [[], []] := by
  constructor
  · have h := (C7_enforceLineLimit_truncation 1 [[], []] (fun _ => none) (fun _ => none) []).1
      (by norm_num)
    simpa using h.1
  · exact (C7_enforceLineLimit_truncation (-1) [[], []] (fun _ => none) (fun _ => none) []).2
      (by norm_num)

/-! ### Header map (C4): the assignment loop lets the LAST occurrence win -/

/-- Index of the last occurrence of `k` in a list (`none` when absent). -/
def lastIdxOf (k : Str) : List Str → Option Nat
  | [] => none
  | h :: t =>
    match lastIdxOf k t with
    | some j => some (j + 1)
    | none => if h = k then some 0 else none

theorem buildHeaderMap_lookup (header : List Str) :
    ∀ (i : Nat) (m : Str → Option Nat) (k : Str),
      buildHeaderMap header i m k =
        match lastIdxOf k header with
        | some j => some (i + j)
        | none => m k := by
  induction header with
  | nil => intro i m k; rfl
  | cons h t ih =>
    intro i m k
    have hstep : buildHeaderMap (h :: t) i m k = buildHeaderMap t (i + 1) (insertEntry m h i) k := rfl
    rw [hstep, ih]
    cases hj : lastIdxOf k t with
    | some j =>
      have hc : lastIdxOf k (h :: t) = some (j + 1) := by rw [lastIdxOf, hj]
      rw [hc]
      show some (i + 1 + j) = some (i + (j + 1))
      exact congrArg some (by omega)
    | none =>
      have hcons : lastIdxOf k (h :: t) = if h = k then some 0 else none := by
        rw [lastIdxOf, hj]
      by_cases hk : h = k
      · rw [hcons, if_pos hk]
        show insertEntry m h i k = some (i + 0)
        rw [insertEntry, if_pos hk.symm]
        exact congrArg some (by omega)
      · rw [hcons, if_neg hk]
        show insertEntry m h i k = m k
        rw [insertEntry, if_neg (fun h2 => hk h2.symm)]

theorem headerIndexMap_eq_lastIdxOf (header : List Str) (k : Str) :
    headerIndexMap header k = lastIdxOf k header := by
  rw [headerIndexMap, buildHeaderMap_lookup]
  cases lastIdxOf k header with
  | some j => simp
  | none => rfl

theorem lastIdxOf_eq_none (k : Str) :
    ∀ l : List Str, lastIdxOf k l = none → ∀ j : Nat, l[j]? ≠ some k := by
  intro l
  induction l with
  | nil => intro _ j; simp
  | cons h t ih =>
    intro hnone j
    have hj : lastIdxOf k t = none := by
      cases hj : lastIdxOf k t with
      | some j0 => rw [lastIdxOf, hj] at hnone; exact absurd hnone (by simp)
      | none => rfl
    have hh : h ≠ k := by
      intro hk
      rw [lastIdxOf, hj, if_pos hk] at hnone
      exact absurd hnone (by simp)
    cases j with
    | zero => simpa using hh
    | succ n => simpa using ih hj n

theorem lastIdxOf_spec (k : Str) :
    ∀ (l : List Str) (i : Nat), lastIdxOf k l = some i →
      l[i]? = some k ∧ ∀ j : Nat, i < j → l[j]? ≠ some k := by
  intro l
  induction l with
  | nil => intro i h; exact absurd h (by simp [lastIdxOf])
  | cons h t ih =>
    intro i hsome
    cases hj : lastIdxOf k t with
    | some j0 =>
      rw [lastIdxOf, hj] at hsome
      have hi : i = j0 + 1 := by
        have := Option.some.inj hsome
        omega
      subst hi
      refine ⟨by simpa using (ih j0 hj).1, ?_⟩
      intro j hlt
      cases j with
      | zero => omega
      | succ n =>
        have : j0 < n := by omega
        simpa using (ih j0 hj).2 n this
    | none =>
      rw [lastIdxOf, hj] at hsome
      by_cases hk : h = k
      · rw [if_pos hk] at hsome
        have hi : i = 0 := by
          have := Option.some.inj hsome
          omega
        subst hi
        refine ⟨by simpa using hk, ?_⟩
        intro j hlt
        cases j with
        | zero => omega
        | succ n => simpa using lastIdxOf_eq_none k t hj n
      · rw [if_neg hk] at hsome
        exact absurd hsome (by simp)

/-- C4 as stated is false: with the duplicated header `a,x,a`, the map built
by the assignment loop binds `a` to index `2`, the LAST occurrence, not the
first occurrence (index `0`). -/
theorem C4_counterexample :
    headerIndexMap [['a'], ['x'], ['a']] ['a'] = some 2 ∧ (2 : Nat) ≠ 0 := by
  constructor
  · decide
  · decide

/-- C4 amended: when the header contains a name more than once, the
name-to-index map binds that name to the index of its LAST occurrence in the
header (each later `header_index[name] = i` assignment overwrites the earlier
one), so cells are read from the last matching header position. -/
theorem C4_headerIndexMap_last_occurrence (header : List Str) (name : Str) (i : Nat)
    (h : headerIndexMap header name = some i) :
    header[i]? = some name ∧ ∀ j : Nat, i < j → header[j]? ≠ some name := by
  apply lastIdxOf_spec
  rw [← headerIndexMap_eq_lastIdxOf]
  exact h

theorem C4_witness : [['a'], ['x'], ['a']][2]? = some ['a'] :=
  (C4_headerIndexMap_last_occurrence [['a'], ['x'], ['a']] ['a'] 2 (by decide)).1

/-! ### Coercion safety (C10) and summary/normalize ordering (C1) -/

/-- C10: every element of a column series comes from an in-bounds,
successfully parsed cell (the name resolved in the header map AND the resolved
index was strictly below the field count of the row); and on a row shorter than the
resolved index the coercer produces the column-not-found outcome (diagnostic
and skip) instead of reading out of bounds. -/
theorem C10_coercion_reads_in_bounds (parse : Str → Option ℚ) (header_index : Str → Option Nat)
    (rows : List (List Str)) (col_name : Str) :
    (∀ v ∈ buildColumnSeries parse header_index rows col_name,
      ∃ row, row ∈ rows ∧ ∃ i, ∃ hlt : i < row.length,
        header_index col_name = some i ∧ parse (row.get ⟨i, hlt⟩) = some v) ∧
    (∀ (row : List Str) (i : Nat), header_index col_name = some i → row.length ≤ i →
      coerceCell parse header_index row col_name = CellOutcome.notFound) := by
  constructor
  · intro v hv
    rw [buildColumnSeries, List.mem_filterMap] at hv
    rcases hv with ⟨row, hrow, heq⟩
    refine ⟨row, hrow, ?_⟩
    revert heq
    cases hcol : header_index col_name with
    | none => simp [coerceCell, hcol]
    | some idx =>
      simp only [coerceCell, hcol]
      by_cases hlt : idx < row.length
      · rw [dif_pos hlt]
        cases hp : parse (row.get ⟨idx, hlt⟩) with
        | none => intro heq; exact Option.noConfusion heq
        | some w =>
          intro heq
          have hw : w = v := Option.some.inj heq
          exact ⟨idx, hlt, rfl, by rw [hp, hw]⟩
      · rw [dif_neg hlt]
        intro heq
        exact Option.noConfusion heq
  · intro row i hcol hle
    simp only [coerceCell, hcol]
    rw [dif_neg (not_lt.mpr hle)]

theorem C10_witness :
    coerceCell (fun _ => none) (fun _ => some 5) [['x']] ['a'] = CellOutcome.notFound :=
  (C10_coercion_reads_in_bounds (fun _ => none) (fun _ => some 5) [] ['a']).2
    [['x']] 5 rfl (by norm_num)

/-- C1: the summary rows are computed from the raw coerced series before any
normalization, so they are identical whether the dataset `normalize` flag is
true or false. -/
theorem C1_summary_independent_of_normalize (sqrt : ℚ → ℚ) (parse : Str → Option ℚ)
    (spec : DatasetSpec) (csv_data : List (List Str)) :
    Option.map Prod.fst (processDataset sqrt parse { spec with normalize := true } csv_data) =
    Option.map Prod.fst (processDataset sqrt parse { spec with normalize := false } csv_data) := by
  cases csv_data with
  | nil => rfl
  | cons h t => rfl

/-! ### Concrete instances for C5 and C9 -/

/-- Toy `std::stod` model used in concrete checks: parses exactly "1". -/
def parseOne : Str → Option ℚ := fun s => if s = ['1'] then some 1 else none

/-- Concrete dataset spec with a negative `lines_to_read`. -/
def specNeg : DatasetSpec :=
  { file_name := ['d'], lines_to_read := -1, columns := [['a']],
    do_not_include := [], normalize := false }

/-- Concrete dataset spec with `lines_to_read = 3`. -/
def specPos : DatasetSpec :=
  { file_name := ['d'], lines_to_read := 3, columns := [['a']],
    do_not_include := [], normalize := false }

/-- Concrete parsed table: header `a`, one data row `1`. -/
def csvOne : List (List Str) := [[['a']], [['1']]]

theorem processDataset_specNeg_eval :
    processDataset id parseOne specNeg csvOne =
      some ([{ column_name := ['a'], mean := 1, stddev := 0,
               param_count := 18446744073709551615 }], none) := by
  have h1 : buildColumnSeries parseOne (headerIndexMap [['a']])
      (enforceLineLimit specNeg.lines_to_read [[['1']]]) ['a'] = [1] := by decide
  have h2 : filterColumns specNeg.columns specNeg.do_not_include = [['a']] := by decide
  have h3 : ((specNeg.lines_to_read % ((2 : Int) ^ 64)).toNat) = 18446744073709551615 := by decide
  simp only [processDataset, csvOne, h2, List.map_cons, List.map_nil, h1, h3]
  norm_num [computeMeanAndStdDev, accumulate, inner_product, List.filterMap, specNeg]

theorem processDataset_specPos_eval :
    processDataset id parseOne specPos csvOne =
      some ([{ column_name := ['a'], mean := 1, stddev := 0, param_count := 3 }], none) := by
  have h1 : buildColumnSeries parseOne (headerIndexMap [['a']])
      (enforceLineLimit specPos.lines_to_read [[['1']]]) ['a'] = [1] := by decide
  have h2 : filterColumns specPos.columns specPos.do_not_include = [['a']] := by decide
  have h3 : ((specPos.lines_to_read % ((2 : Int) ^ 64)).toNat) = 3 := by decide
  simp only [processDataset, csvOne, h2, List.map_cons, List.map_nil, h1, h3]
  norm_num [computeMeanAndStdDev, accumulate, inner_product, List.filterMap, specPos]

/-! ### C5: param_count and the int-to-size_t conversion -/

/-- C5 as stated is false: with `lines_to_read = -1` the `param_count` of
the summary row is written as `2^64 - 1 = 18446744073709551615` (the value of
`size_t param_count = lines_to_read;`), which is not the configured value
`-1`. -/
theorem C5_counterexample :
    processDataset id parseOne specNeg csvOne =
      some ([{ column_name := ['a'], mean := 1, stddev := 0,
               param_count := 18446744073709551615 }], none) ∧
    specNeg.lines_to_read = -1 ∧ ((18446744073709551615 : Int) ≠ -1) :=
  ⟨processDataset_specNeg_eval, rfl, by norm_num⟩

/-- C5 amended: the `param_count` of every written summary row equals
`lines_to_read` converted to `size_t`, i.e. `lines_to_read mod 2^64`; this
equals the configured `lines_to_read` itself exactly when `lines_to_read` is
nonnegative (as any in-range nonnegative C++ `int` is), regardless of how many
rows were read or how many cells were coerced. -/
theorem C5_param_count_size_t_of_lines_to_read (sqrt : ℚ → ℚ) (parse : Str → Option ℚ)
    (spec : DatasetSpec) (csv_data : List (List Str))
    (out : List SummaryRow × Option (List (List ℚ)))
    (h : processDataset sqrt parse spec csv_data = some out)
    (r : SummaryRow) (hr : r ∈ out.1) :
    r.param_count = (spec.lines_to_read % ((2 : Int) ^ 64)).toNat ∧
    (0 ≤ spec.lines_to_read → spec.lines_to_read < (2 : Int) ^ 64 →
      (r.param_count : Int) = spec.lines_to_read) := by
  cases csv_data with
  | nil => exact absurd h (by simp [processDataset])
  | cons hd tl =>
    simp only [processDataset] at h
    have hout := (Option.some.inj h).symm
    rw [hout] at hr
    obtain ⟨p, hp, hpe⟩ := List.mem_filterMap.mp hr
    by_cases hemp : p.2.isEmpty = true
    · rw [if_pos hemp] at hpe
      exact absurd hpe (by simp)
    · rw [if_neg hemp] at hpe
      have hrec := Option.some.inj hpe
      constructor
      · rw [← hrec]
      · intro h0 hlt
        rw [← hrec]
        show (((spec.lines_to_read % ((2 : Int) ^ 64)).toNat : Int)) = spec.lines_to_read
        rw [Int.emod_eq_of_lt h0 hlt]
        exact Int.toNat_of_nonneg h0

theorem C5_witness :
    ({ column_name := ['a'], mean := 1, stddev := 0, param_count := 3 } : SummaryRow).param_count
      = ((3 : Int) % ((2 : Int) ^ 64)).toNat ∧
    ((({ column_name := ['a'], mean := 1, stddev := 0,
         param_count := 3 } : SummaryRow).param_count : Int)) = (3 : Int) := by
  have h := C5_param_count_size_t_of_lines_to_read id parseOne specPos csvOne
    ([{ column_name := ['a'], mean := 1, stddev := 0, param_count := 3 }], none)
    processDataset_specPos_eval
    { column_name := ['a'], mean := 1, stddev := 0, param_count := 3 }
    (List.mem_singleton.mpr rfl)
  exact ⟨h.1, h.2 (by decide) (by decide)⟩

/-! ### C9: batch fault isolation -/

/-- C9: if the table file of dataset A cannot be opened (`readCSV` gives the empty
table), A is skipped and a later dataset B is still fully processed: its
output (summary rows and, when `normalize` is set, transformed data) appears
in the batch output, and with `normalize = true` the transformed file content
is present. -/
theorem C9_batch_fault_isolation (sqrt : ℚ → ℚ) (parse : Str → Option ℚ)
    (fs : Str → Option (List Str)) (specA specB : DatasetSpec)
    (out : List SummaryRow × Option (List (List ℚ)))
    (hA : readCSV (fs specA.file_name) = [])
    (hB : processDataset sqrt parse specB (readCSV (fs specB.file_name)) = some out) :
    processBatch sqrt parse fs [specA, specB] = [(specB.file_name, out)] ∧
    (specB.normalize = true → out.2.isSome = true) := by
  constructor
  · rw [processBatch, List.filterMap_cons, List.filterMap_cons, List.filterMap_nil, hA, hB]
    rfl
  · intro hnorm
    cases hcsv : readCSV (fs specB.file_name) with
    | nil =>
      rw [hcsv] at hB
      exact absurd hB (by simp [processDataset])
    | cons hd tl =>
      rw [hcsv] at hB
      simp only [processDataset] at hB
      have hout := (Option.some.inj hB).symm
      rw [hout]
      simp [hnorm]

/-- Concrete two-file file system: only file `b` exists. -/
def fsTwo : Str → Option (List Str) :=
  fun n => if n = ['b'] then some [['a'], ['1']] else none

/-- Concrete dataset spec whose file `x` is missing from `fsTwo`. -/
def specA0 : DatasetSpec :=
  { file_name := ['x'], lines_to_read := 1, columns := [['a']],
    do_not_include := [], normalize := false }

/-- Concrete dataset spec for file `b`, with normalization requested. -/
def specB0 : DatasetSpec :=
  { file_name := ['b'], lines_to_read := 3, columns := [['a']],
    do_not_include := [], normalize := true }

theorem processDataset_specB0_eval :
    processDataset id parseOne specB0 (readCSV (fsTwo ['b'])) =
      some ([{ column_name := ['a'], mean := 1, stddev := 0, param_count := 3 }],
        some [[0]]) := by
  have hcsv : readCSV (fsTwo ['b']) = csvOne := by decide
  rw [hcsv]
  have h1 : buildColumnSeries parseOne (headerIndexMap [['a']])
      (enforceLineLimit specB0.lines_to_read [[['1']]]) ['a'] = [1] := by decide
  have h2 : filterColumns specB0.columns specB0.do_not_include = [['a']] := by decide
  have h3 : ((specB0.lines_to_read % ((2 : Int) ^ 64)).toNat) = 3 := by decide
  simp only [processDataset, csvOne, h2, List.map_cons, List.map_nil, h1, h3]
  norm_num [computeMeanAndStdDev, accumulate, inner_product, List.filterMap, specB0,
    normalizeColumn]

theorem C9_witness :
    processBatch id parseOne fsTwo [specA0, specB0] =
      [(['b'], ([{ column_name := ['a'], mean := 1, stddev := 0, param_count := 3 }],
        some [[0]]))] :=
  (C9_batch_fault_isolation id parseOne fsTwo specA0 specB0
    ([{ column_name := ['a'], mean := 1, stddev := 0, param_count := 3 }], some [[0]])
    (by decide) processDataset_specB0_eval).1
